import Mathlib

/-!
Verification development for the Deadmanswitch encryption module.

The repository consists of two thin environment bindings (a native one over an
injected node-style crypto provider, `src/native.ts`, and a browser one over an
injected WebCrypto-style provider) implementing key derivation
(PBKDF2-HMAC-SHA256), fingerprint derivation, and AES-256-CBC stream
encryption/decryption over base64-encoded texts.

Texts are modelled as byte sequences (their UTF-8 code units), so the
TextEncoder / utf8-encoding steps of the source are identities here.  The
injected platform primitives (PBKDF2, the AES block permutation, the random
source) are not part of the repository; they are modelled as an explicit
`Primitives` record, and the CBC chaining, PKCS#7 padding, update/final chunk
split and base64 framing that the platform cipher objects perform are modelled
from the spec (section 4.4: AES-256-CBC, PKCS-style padding, update emitting
the main transformed blocks and final the closing block).
-/

/-- Byte sequences (and texts, identified with their UTF-8 bytes). -/
abbrev Bytes := List Nat

/-- All entries are genuine bytes. -/
def ValidBytes (l : Bytes) : Prop := ∀ x ∈ l, x < 256

instance decidableValidBytes (l : Bytes) : Decidable (ValidBytes l) :=
  inferInstanceAs (Decidable (∀ x ∈ l, x < 256))

/-- ASCII code of the standard base64 alphabet character for a sextet. -/
def b64char (n : Nat) : Nat :=
  if n < 26 then 65 + n
  else if n < 52 then 71 + n
  else if n < 62 then n - 4
  else if n = 62 then 43
  else 47

/-- Sextet value of an ASCII code, none for characters outside the alphabet
(among them the padding character 61, ASCII for the equals sign). -/
def b64value? (c : Nat) : Option Nat :=
  if 65 ≤ c ∧ c ≤ 90 then some (c - 65)
  else if 97 ≤ c ∧ c ≤ 122 then some (c - 71)
  else if 48 ≤ c ∧ c ≤ 57 then some (c + 4)
  else if c = 43 then some 62
  else if c = 47 then some 63
  else none

/-- Reassemble bytes from a stream of sextets, as a lenient base64 decoder
does after discarding non-alphabet characters. -/
def sextetsToBytes : List Nat → List Nat
  | s1 :: s2 :: s3 :: s4 :: rest =>
      (s1 * 4 + s2 / 16) :: (s2 % 16 * 16 + s3 / 4) :: (s3 % 4 * 64 + s4) ::
        sextetsToBytes rest
  | [s1, s2, s3] => [s1 * 4 + s2 / 16, s2 % 16 * 16 + s3 / 4]
  | [s1, s2] => [s1 * 4 + s2 / 16]
  | _ => []

/-- Modelled from the spec: the platform base64 decoder behind the
buffer-from-base64 conversions of both bindings (lenient: non-alphabet
characters are ignored). On the padded standard base64 the system itself
produces it is the inverse of `base64encode`. -/
def b64decode (s : Bytes) : Bytes := sextetsToBytes (s.filterMap b64value?)

/-- Modelled from the spec: standard padded base64 encoding, the textual
re-encoding applied to every byte output before delivery. -/
def base64encode : Bytes → Bytes
  | b1 :: b2 :: b3 :: rest =>
      b64char (b1 / 4) :: b64char (b1 % 4 * 16 + b2 / 16) ::
        b64char (b2 % 16 * 4 + b3 / 64) :: b64char (b3 % 64) :: base64encode rest
  | [b1, b2] => [b64char (b1 / 4), b64char (b1 % 4 * 16 + b2 / 16), b64char (b2 % 16 * 4), 61]
  | [b1] => [b64char (b1 / 4), b64char (b1 % 4 * 16), 61, 61]
  | [] => []

/-- Pointwise exclusive or of two equal-length byte sequences. -/
def xorBytes (xs ys : Bytes) : Bytes := List.zipWith (fun a b => a ^^^ b) xs ys

/-- Fuel-driven splitter into consecutive 16-byte chunks; the fuel only has
to dominate the length, so recursion is structural and computable. -/
def chunk16Fuel : Nat → Bytes → List Bytes
  | _, [] => []
  | 0, _ => []
  | n + 1, b :: t => ((b :: t).take 16) :: chunk16Fuel n ((b :: t).drop 16)

/-- Split a byte sequence into consecutive 16-byte cipher blocks (a trailing
fragment shorter than 16 bytes becomes a short final chunk). -/
def chunk16 (l : Bytes) : List Bytes := chunk16Fuel l.length l

/-- Modelled from the spec: PKCS#7 padding to a whole number of 16-byte
blocks, as the platform cipher applies at the end of encryption. -/
def pkcs7pad (pt : Bytes) : Bytes :=
  pt ++ List.replicate (16 - pt.length % 16) (16 - pt.length % 16)

/-- Modelled from the spec: PKCS#7 padding validation of the final plaintext
block at the end of decryption; none signals the invalid-padding failure. -/
def pkcs7stripBlock (blk : Bytes) : Option Bytes :=
  match blk.getLast? with
  | none => none
  | some p =>
      if 1 ≤ p ∧ p ≤ 16 ∧ (blk.drop (blk.length - p)).all (fun x => x == p) then
        some (blk.take (blk.length - p))
      else none

/-- Modelled from the spec: CBC chaining on the encryption side; each block is
xored with the previous ciphertext block (initially the IV) and then pushed
through the keyed block permutation. -/
def cbcEncBlocks (enc : Bytes → Bytes) : Bytes → List Bytes → List Bytes
  | _, [] => []
  | prev, b :: bs =>
      let c := enc (xorBytes prev b)
      c :: cbcEncBlocks enc c bs

/-- Modelled from the spec: CBC chaining on the decryption side. -/
def cbcDecBlocks (dec : Bytes → Bytes) : Bytes → List Bytes → List Bytes
  | _, [] => []
  | prev, c :: cs => xorBytes prev (dec c) :: cbcDecBlocks dec c cs

/-- Modelled from the spec: the full CBC ciphertext (all blocks, padding
included) for a plaintext under a block permutation and IV. -/
def cbcEncryptBytes (enc : Bytes → Bytes) (iv pt : Bytes) : Bytes :=
  (cbcEncBlocks enc iv (chunk16 (pkcs7pad pt))).flatten

/-- Modelled from the spec: the injected platform primitive provider. The
fields are the deterministic cryptographic functions the two bindings invoke:
PBKDF2 with HMAC-SHA256 (password bytes, salt bytes, iteration count, output
byte length), the AES block permutation and its inverse keyed by the raw key
bytes, and the random source. -/
structure Primitives where
  pbkdf2sha256 : Bytes → Bytes → Nat → Nat → Bytes
  aesEnc : Bytes → Bytes → Bytes
  aesDec : Bytes → Bytes → Bytes
  randomBytes : Nat → Bytes

/-- The native provider handle: the primitives together with which of the four
node-crypto entry points the injected object actually supplies (the JS
truthiness tests of `src/native.ts`). -/
structure NativeProvider where
  prims : Primitives
  hasRandomBytes : Bool
  hasPbkdf2Sync : Bool
  hasCreateCipheriv : Bool
  hasCreateDecipheriv : Bool

/-- The browser provider handle: the primitives together with which WebCrypto
entry points the injected object supplies. -/
structure BrowserProvider where
  prims : Primitives
  hasSubtle : Bool
  hasImportKey : Bool
  hasDeriveBits : Bool
  hasSubtleDecrypt : Bool

/-- The provider entry point named by an explicit capability check. -/
inductive Capability where
  | randomBytes
  | createCipheriv
  | subtleImportKey
deriving DecidableEq

/-- The failures an operation can surface: a TypeError from dereferencing or
calling something undefined, an explicit capability-unsupported throw, the
parameter rejections raised inside the provider cipher-context creation, the
two final-block failures of native decryption, and the browser DataError /
OperationError rejections. -/
inductive CryptoErr where
  | typeError
  | capability (c : Capability)
  | invalidKeyLength
  | invalidIvLength
  | wrongFinalBlockLength
  | badDecrypt
  | dataError
  | operationError
deriving DecidableEq

/-- A cryptographic primitive invocation on the provider, with its arguments
as the bindings pass them. -/
inductive ProviderCall where
  | randomBytes (n : Nat)
  | pbkdf2 (password salt : Bytes) (iterations keylen : Nat)
  | createCipheriv (key iv : Bytes)
  | createDecipheriv (key iv : Bytes)
  | importKeyPbkdf2 (keyMaterial : Bytes)
  | importKeyAesCbc (keyMaterial : Bytes)
  | deriveBits (salt : Bytes) (iterations bits : Nat)
  | subtleDecrypt (iv data : Bytes)
deriving DecidableEq

/-- Outcome of a key- or fingerprint-derivation call. -/
inductive DeriveOut where
  | ok (text : Bytes)
  | err (e : CryptoErr)
deriving DecidableEq

/-- Outcome of an encrypt/decrypt call: the provider primitives invoked, the
sink invocations in order, and the failure if the call threw (none on
success). -/
structure OpResult where
  calls : List ProviderCall
  emitted : List Bytes
  failure : Option CryptoErr
deriving DecidableEq

/-- nativeInit: stores the injected provider in the module-level handle. -/
def nativeInit (p : NativeProvider) : Option NativeProvider := some p

/-- browserInit: stores the injected provider in the module-level handle. -/
def browserInit (p : BrowserProvider) : Option BrowserProvider := some p

/-- nativeGenerateIvv: base64 of 16 random bytes, after checking the
randomBytes capability. An uninitialised handle is a TypeError. -/
def nativeGenerateIvv : Option NativeProvider → List ProviderCall × DeriveOut
  | none => ([], .err .typeError)
  | some p =>
      if p.hasRandomBytes = false then ([], .err (.capability .randomBytes))
      else ([ProviderCall.randomBytes 16], .ok (base64encode (p.prims.randomBytes 16)))

/-- nativeGenerateKey: checks the randomBytes capability (as the source does),
then calls pbkdf2Sync with the password, the base64-decoded salt, 100000
iterations, 32-byte output and the sha256 digest, and re-encodes the derived
bytes as base64. Calling an absent pbkdf2Sync is a TypeError. -/
def nativeGenerateKey (st : Option NativeProvider) (password ivv : Bytes) :
    List ProviderCall × DeriveOut :=
  match st with
  | none => ([], .err .typeError)
  | some p =>
      if p.hasRandomBytes = false then ([], .err (.capability .randomBytes))
      else if p.hasPbkdf2Sync = false then ([], .err .typeError)
      else
        ([ProviderCall.pbkdf2 password (b64decode ivv) 100000 32],
          .ok (base64encode (p.prims.pbkdf2sha256 password (b64decode ivv) 100000 32)))

/-- nativeGenerateHash: derives a key from the password, then derives again
with the base64 text of that key as password and the same salt. -/
def nativeGenerateHash (st : Option NativeProvider) (password ivv : Bytes) :
    List ProviderCall × DeriveOut :=
  let r1 := nativeGenerateKey st password ivv
  match r1.2 with
  | .err e => (r1.1, .err e)
  | .ok key =>
      let r2 := nativeGenerateKey st key ivv
      (r1.1 ++ r2.1, r2.2)

/-- nativeEncryptText: checks the createCipheriv capability, creates the
cipher context (which rejects a decoded key not of 32 bytes and a decoded IV
not of 16 bytes), then emits to the sink the base64 of the update output (the
ciphertext of the whole 16-byte blocks of the input) followed by the base64 of
the final output (the remaining padded block). -/
def nativeEncryptText (st : Option NativeProvider) (key ivv text : Bytes) : OpResult :=
  match st with
  | none => ⟨[], [], some .typeError⟩
  | some p =>
      if p.hasCreateCipheriv = false then ⟨[], [], some (.capability .createCipheriv)⟩
      else
        let kb := b64decode key
        let ib := b64decode ivv
        if kb.length ≠ 32 then ⟨[ProviderCall.createCipheriv kb ib], [], some .invalidKeyLength⟩
        else if ib.length ≠ 16 then ⟨[ProviderCall.createCipheriv kb ib], [], some .invalidIvLength⟩
        else
          let full := cbcEncryptBytes (p.prims.aesEnc kb) ib text
          let cut := 16 * (text.length / 16)
          ⟨[ProviderCall.createCipheriv kb ib],
            [base64encode (full.take cut), base64encode (full.drop cut)], none⟩

/-- nativeDecryptText: checks the createCipheriv capability (the source tests
createCipheriv, not createDecipheriv), creates the decipher context (same
length rejections), emits the update output (the plaintext of every complete
block but the withheld last one) to the sink, then on final either fails on a
ciphertext length that is not a positive multiple of 16, fails the padding
validation of the last block, or emits the stripped last block. -/
def nativeDecryptText (st : Option NativeProvider) (key ivv text : Bytes) : OpResult :=
  match st with
  | none => ⟨[], [], some .typeError⟩
  | some p =>
      if p.hasCreateCipheriv = false then ⟨[], [], some (.capability .createCipheriv)⟩
      else if p.hasCreateDecipheriv = false then ⟨[], [], some .typeError⟩
      else
        let kb := b64decode key
        let ib := b64decode ivv
        if kb.length ≠ 32 then ⟨[ProviderCall.createDecipheriv kb ib], [], some .invalidKeyLength⟩
        else if ib.length ≠ 16 then ⟨[ProviderCall.createDecipheriv kb ib], [], some .invalidIvLength⟩
        else
          let ct := b64decode text
          let plains := cbcDecBlocks (p.prims.aesDec kb) ib (chunk16 (ct.take (16 * (ct.length / 16))))
          let u := plains.dropLast.flatten
          if ct.length = 0 ∨ ct.length % 16 ≠ 0 then
            ⟨[ProviderCall.createDecipheriv kb ib], [u], some .wrongFinalBlockLength⟩
          else
            match plains.getLast? with
            | none => ⟨[ProviderCall.createDecipheriv kb ib], [u], some .wrongFinalBlockLength⟩
            | some lb =>
              match pkcs7stripBlock lb with
              | none => ⟨[ProviderCall.createDecipheriv kb ib], [u], some .badDecrypt⟩
              | some s => ⟨[ProviderCall.createDecipheriv kb ib], [u, s], none⟩

/-- browserGenerateKey: checks subtle.importKey through optional chaining,
imports the password bytes as PBKDF2 key material, then calls deriveBits with
the base64-decoded salt, 100000 iterations, SHA-256 and 256 bits, and
base64-encodes the derived bytes. Calling an absent deriveBits is a
TypeError. -/
def browserGenerateKey (st : Option BrowserProvider) (password ivv : Bytes) :
    List ProviderCall × DeriveOut :=
  match st with
  | none => ([], .err .typeError)
  | some p =>
      if (p.hasSubtle && p.hasImportKey) = false then ([], .err (.capability .subtleImportKey))
      else if p.hasDeriveBits = false then
        ([ProviderCall.importKeyPbkdf2 password], .err .typeError)
      else
        ([ProviderCall.importKeyPbkdf2 password,
            ProviderCall.deriveBits (b64decode ivv) 100000 256],
          .ok (base64encode (p.prims.pbkdf2sha256 password (b64decode ivv) 100000 (256 / 8))))

/-- browserGenerateHash: derives a key, then derives again with that key text
as password and the same salt. -/
def browserGenerateHash (st : Option BrowserProvider) (password ivv : Bytes) :
    List ProviderCall × DeriveOut :=
  let r1 := browserGenerateKey st password ivv
  match r1.2 with
  | .err e => (r1.1, .err e)
  | .ok key =>
      let r2 := browserGenerateKey st key ivv
      (r1.1 ++ r2.1, r2.2)

/-- browserDecryptText: checks subtle.importKey, imports the decoded key as a
raw AES-CBC key (DataError unless it has 16, 24 or 32 bytes), then calls
subtle.decrypt, which rejects an IV not of 16 bytes and a ciphertext whose
length is not a positive multiple of 16, validates the PKCS#7 padding, and on
success delivers the entire unpadded plaintext to the sink in one
invocation. -/
def browserDecryptText (st : Option BrowserProvider) (key ivv text : Bytes) : OpResult :=
  match st with
  | none => ⟨[], [], some .typeError⟩
  | some p =>
      if (p.hasSubtle && p.hasImportKey) = false then
        ⟨[], [], some (.capability .subtleImportKey)⟩
      else
        let kb := b64decode key
        if kb.length ≠ 16 ∧ kb.length ≠ 24 ∧ kb.length ≠ 32 then
          ⟨[ProviderCall.importKeyAesCbc kb], [], some .dataError⟩
        else if p.hasSubtleDecrypt = false then
          ⟨[ProviderCall.importKeyAesCbc kb], [], some .typeError⟩
        else
          let ib := b64decode ivv
          let ct := b64decode text
          if ib.length ≠ 16 then
            ⟨[ProviderCall.importKeyAesCbc kb, ProviderCall.subtleDecrypt ib ct], [],
              some .operationError⟩
          else if ct.length = 0 ∨ ct.length % 16 ≠ 0 then
            ⟨[ProviderCall.importKeyAesCbc kb, ProviderCall.subtleDecrypt ib ct], [],
              some .operationError⟩
          else
            let plains := cbcDecBlocks (p.prims.aesDec kb) ib (chunk16 ct)
            match plains.getLast? with
            | none =>
              ⟨[ProviderCall.importKeyAesCbc kb, ProviderCall.subtleDecrypt ib ct], [],
                some .operationError⟩
            | some lb =>
              match pkcs7stripBlock lb with
              | none =>
                ⟨[ProviderCall.importKeyAesCbc kb, ProviderCall.subtleDecrypt ib ct], [],
                  some .operationError⟩
              | some s =>
                ⟨[ProviderCall.importKeyAesCbc kb, ProviderCall.subtleDecrypt ib ct],
                  [plains.dropLast.flatten ++ s], none⟩

/-- Whether a derivation outcome is the explicit capability-unsupported
throw. -/
def DeriveOut.isCapabilityErr : DeriveOut → Bool
  | .err (.capability _) => true
  | _ => false

/-- Whether an encrypt/decrypt outcome is the explicit capability-unsupported
throw. -/
def OpResult.isCapabilityErr (r : OpResult) : Bool :=
  match r.failure with
  | some (.capability _) => true
  | _ => false

/-- A concrete provider whose block permutation is the identity and whose
PBKDF2 model depends on password and salt; used to instantiate theorems with
hypotheses on concrete inputs. -/
def plainPrims : Primitives where
  pbkdf2sha256 := fun pw salt iter n =>
    (List.range n).map (fun i => (i + pw.length + salt.length + iter) % 256)
  aesEnc := fun _ b => b
  aesDec := fun _ b => b
  randomBytes := fun n => List.replicate n 7

def npFull : NativeProvider := ⟨plainPrims, true, true, true, true⟩

def bpFull : BrowserProvider := ⟨plainPrims, true, true, true, true⟩

def npNoPbkdf2 : NativeProvider := ⟨plainPrims, true, false, true, true⟩

def npNoDecipher : NativeProvider := ⟨plainPrims, true, true, true, false⟩

def npNoRandom : NativeProvider := ⟨plainPrims, false, true, true, true⟩

def npNoCipher : NativeProvider := ⟨plainPrims, true, true, false, true⟩

def bpNoDeriveBits : BrowserProvider := ⟨plainPrims, true, true, false, true⟩

def pw0 : Bytes := [112, 119]

def key32 : Bytes := List.replicate 32 0

def salt16 : Bytes := List.replicate 16 0

def keyText32 : Bytes := base64encode key32

def saltText16 : Bytes := base64encode salt16

def keyText16 : Bytes := base64encode (List.replicate 16 0)

def ctPadOnly : Bytes := base64encode (List.replicate 16 16)

def ctTwoEqualBlocks : Bytes := base64encode (List.replicate 32 65)

def ctTwoBlocks : Bytes :=
  base64encode (List.replicate 16 65 ++ (41 :: 40 :: List.replicate 14 79))

def keyText8 : Bytes := base64encode (List.replicate 8 0)

def saltText4 : Bytes := base64encode (List.replicate 4 0)

/-! ## Base64 lemmas -/

theorem b64value_b64char : ∀ n < 64, b64value? (b64char n) = some n := by decide

theorem b64value_lt {c v : Nat} (h : b64value? c = some v) : v < 64 := by
  unfold b64value? at h
  repeat' split at h
  all_goals simp only [Option.some.injEq, reduceCtorEq] at h
  all_goals omega

theorem sextetsToBytes_valid : ∀ vs : List Nat, (∀ v ∈ vs, v < 64) → ValidBytes (sextetsToBytes vs) := by
  intro vs
  induction vs using sextetsToBytes.induct with
  | case1 s1 s2 s3 s4 rest ih =>
      intro h
      have h1 := h s1 (by simp)
      have h2 := h s2 (by simp)
      have h3 := h s3 (by simp)
      have h4 := h s4 (by simp)
      intro x hx
      simp only [sextetsToBytes, List.mem_cons] at hx
      rcases hx with h' | h' | h' | h'
      · omega
      · omega
      · omega
      · exact ih (fun v hv => h v (by simp [hv])) x h'
  | case2 s1 s2 s3 =>
      intro h
      have h1 := h s1 (by simp)
      have h2 := h s2 (by simp)
      have h3 := h s3 (by simp)
      intro x hx
      simp only [sextetsToBytes, List.mem_cons, List.not_mem_nil, or_false] at hx
      rcases hx with h' | h' <;> omega
  | case3 s1 s2 =>
      intro h
      have h1 := h s1 (by simp)
      have h2 := h s2 (by simp)
      intro x hx
      simp only [sextetsToBytes, List.mem_cons, List.not_mem_nil, or_false] at hx
      omega
  | case4 vs h1 h2 h3 =>
      intro _ x hx
      simp only [sextetsToBytes] at hx
      cases hx

theorem validBytes_b64decode (s : Bytes) : ValidBytes (b64decode s) := by
  apply sextetsToBytes_valid
  intro v hv
  rcases List.mem_filterMap.mp hv with ⟨c, _, hc⟩
  exact b64value_lt hc

theorem b64decode_base64encode : ∀ l : Bytes, ValidBytes l → b64decode (base64encode l) = l := by
  intro l
  induction l using base64encode.induct with
  | case1 b1 b2 b3 rest ih =>
      intro h
      have h1 : b1 < 256 := h b1 (by simp)
      have h2 : b2 < 256 := h b2 (by simp)
      have h3 : b3 < 256 := h b3 (by simp)
      have ih' := ih (fun x hx => h x (by simp [hx]))
      unfold base64encode b64decode
      rw [List.filterMap_cons, List.filterMap_cons, List.filterMap_cons, List.filterMap_cons]
      rw [b64value_b64char _ (by omega), b64value_b64char _ (by omega),
        b64value_b64char _ (by omega), b64value_b64char _ (by omega)]
      unfold b64decode at ih'
      simp only [sextetsToBytes, ih', List.cons.injEq, and_true]
      omega
  | case2 b1 b2 =>
      intro h
      have h1 : b1 < 256 := h b1 (by simp)
      have h2 : b2 < 256 := h b2 (by simp)
      unfold base64encode b64decode
      rw [List.filterMap_cons, List.filterMap_cons, List.filterMap_cons, List.filterMap_cons]
      rw [b64value_b64char _ (by omega), b64value_b64char _ (by omega),
        b64value_b64char _ (by omega)]
      norm_num [b64value?, sextetsToBytes]
      omega
  | case3 b1 =>
      intro h
      have h1 : b1 < 256 := h b1 (by simp)
      unfold base64encode b64decode
      rw [List.filterMap_cons, List.filterMap_cons, List.filterMap_cons, List.filterMap_cons]
      rw [b64value_b64char _ (by omega), b64value_b64char _ (by omega)]
      norm_num [b64value?, sextetsToBytes]
      omega
  | case4 =>
      intro _
      rfl

/-! ## Xor lemmas -/

theorem length_xorBytes (xs ys : Bytes) : (xorBytes xs ys).length = min xs.length ys.length := by
  simp [xorBytes]

theorem xorBytes_xorBytes : ∀ xs ys : Bytes, xs.length = ys.length →
    xorBytes xs (xorBytes xs ys) = ys := by
  intro xs
  induction xs with
  | nil => intro ys h; cases ys <;> simp_all [xorBytes]
  | cons a xs ih =>
      intro ys h
      cases ys with
      | nil => simp at h
      | cons b ys =>
          simp only [xorBytes, List.zipWith_cons_cons, List.cons.injEq]
          constructor
          · exact Nat.xor_cancel_left a b
          · exact ih ys (by simpa using h)

theorem validBytes_xorBytes : ∀ xs ys : Bytes, ValidBytes xs → ValidBytes ys →
    ValidBytes (xorBytes xs ys) := by
  intro xs
  induction xs with
  | nil => intro ys _ _; simp [xorBytes, ValidBytes]
  | cons a xs ih =>
      intro ys hx hy
      cases ys with
      | nil => simp [xorBytes, ValidBytes]
      | cons b ys =>
          intro x hxm
          simp only [xorBytes, List.zipWith_cons_cons, List.mem_cons] at hxm
          rcases hxm with h' | h'
      
          · subst h'
            have ha : a < 256 := hx a (by simp)
            have hb : b < 256 := hy b (by simp)
            have : a ^^^ b < 2 ^ 8 := Nat.xor_lt_two_pow (by norm_num [ha]) (by norm_num [hb])
            simpa using this
          · exact ih ys (fun z hz => hx z (by simp [hz])) (fun z hz => hy z (by simp [hz])) x h'

/-! ## Block-splitting lemmas -/

theorem chunk16Fuel_invariant : ∀ (n m : Nat) (l : Bytes), l.length ≤ n → l.length ≤ m →
    chunk16Fuel n l = chunk16Fuel m l := by
  intro n
  induction n with
  | zero =>
      intro m l hn _
      have : l = [] := List.eq_nil_of_length_eq_zero (by omega)
      subst this
      cases m <;> rfl
  | succ n ih =>
      intro m l hn hm
      cases l with
      | nil => cases m <;> rfl
      | cons b t =>
          cases m with
          | zero => simp at hm
          | succ m =>
              simp only [chunk16Fuel]
              have h1 : ((b :: t).drop 16).length ≤ n := by
                simp only [List.length_drop, List.length_cons]
                simp only [List.length_cons] at hn
                omega
              have h2 : ((b :: t).drop 16).length ≤ m := by
                simp only [List.length_drop, List.length_cons]
                simp only [List.length_cons] at hm
                omega
              rw [ih m ((b :: t).drop 16) h1 h2]

theorem chunk16_nil : chunk16 [] = [] := rfl

theorem chunk16_eq {l : Bytes} (h : l ≠ []) : chunk16 l = l.take 16 :: chunk16 (l.drop 16) := by
  cases l with
  | nil => exact absurd rfl h
  | cons b t =>
      show chunk16Fuel (b :: t).length (b :: t) = _
      simp only [List.length_cons, chunk16Fuel]
      rw [chunk16Fuel_invariant t.length ((b :: t).drop 16).length ((b :: t).drop 16)
        (by simp) (le_refl _)]
      rfl

theorem chunk16_induction (motive : Bytes → Prop) (h0 : motive [])
    (hstep : ∀ l, l ≠ [] → motive (l.drop 16) → motive l) : ∀ l, motive l := by
  have main : ∀ n (l : Bytes), l.length ≤ n → motive l := by
    intro n
    induction n with
    | zero =>
        intro l hl
        have : l = [] := List.eq_nil_of_length_eq_zero (by omega)
        subst this
        exact h0
    | succ n ih =>
        intro l hl
        rcases eq_or_ne l [] with h | h
        · subst h
          exact h0
        · refine hstep l h (ih _ ?_)
          have : 0 < l.length := List.length_pos.mpr h
          simp only [List.length_drop]
          omega
  exact fun l => main l.length l (le_refl _)

theorem flatten_chunk16 (l : Bytes) : (chunk16 l).flatten = l := by
  induction l using chunk16_induction with
  | h0 => simp [chunk16_nil]
  | hstep l h ih =>
      rw [chunk16_eq h]
      simp [ih]

theorem chunk16_append {l r : Bytes} (h : l.length = 16) : chunk16 (l ++ r) = l :: chunk16 r := by
  have hne : l ++ r ≠ [] := by
    intro hc
    rcases List.append_eq_nil.mp hc with ⟨h1, _⟩
    subst h1; simp at h
  rw [chunk16_eq hne]
  rw [List.take_append_of_le_length (by omega), List.drop_append_of_le_length (by omega)]
  have hd : l.drop 16 = [] := List.drop_eq_nil_of_le (by omega)
  have ht : l.take 16 = l := List.take_of_length_le (by omega)
  rw [ht, hd]
  simp

theorem chunk16_flatten_blocks : ∀ L : List Bytes, (∀ b ∈ L, b.length = 16) →
    chunk16 L.flatten = L := by
  intro L
  induction L with
  | nil => intro _; simp [chunk16_nil]
  | cons b bs ih =>
      intro h
      simp only [List.flatten_cons]
      rw [chunk16_append (h b (by simp))]
      rw [ih (fun x hx => h x (by simp [hx]))]

theorem chunk16_subset : ∀ l : Bytes, ∀ b ∈ chunk16 l, ∀ x ∈ b, x ∈ l := by
  intro l
  induction l using chunk16_induction with
  | h0 => simp [chunk16_nil]
  | hstep l h ih =>
      rw [chunk16_eq h]
      intro b hb x hx
      rcases List.mem_cons.mp hb with h' | h'
      · subst h'
        exact List.take_subset 16 l hx
      · exact List.drop_subset 16 l (ih b h' x hx)

theorem chunk16_all_length : ∀ {l : Bytes}, (16 : Nat) ∣ l.length →
    ∀ b ∈ chunk16 l, b.length = 16 := by
  intro l
  induction l using chunk16_induction with
  | h0 => intro _; simp [chunk16_nil]
  | hstep l h ih =>
      intro hd
      rw [chunk16_eq h]
      have hlen : 0 < l.length := List.length_pos.mpr h
      have h16 : 16 ≤ l.length := by
        rcases hd with ⟨k, hk⟩
        rcases Nat.eq_zero_or_pos k with h0 | h0
        · omega
        · omega
      intro b hb
      rcases List.mem_cons.mp hb with h' | h'
      · subst h'; simp; omega
      · refine ih ?_ b h'
        simp only [List.length_drop]
        rcases hd with ⟨k, hk⟩
        exact ⟨k - 1, by omega⟩

theorem flatten_length_blocks : ∀ L : List Bytes, (∀ b ∈ L, b.length = 16) →
    L.flatten.length = 16 * L.length := by
  intro L
  induction L with
  | nil => simp
  | cons b bs ih =>
      intro h
      simp only [List.flatten_cons, List.length_append, List.length_cons]
      rw [h b (by simp), ih (fun x hx => h x (by simp [hx]))]
      ring

/-! ## CBC lemmas -/

theorem length_cbcEncBlocks (enc : Bytes → Bytes) :
    ∀ (prev : Bytes) (L : List Bytes), (cbcEncBlocks enc prev L).length = L.length := by
  intro prev L
  induction L generalizing prev with
  | nil => rfl
  | cons b bs ih => simp [cbcEncBlocks, ih]

theorem cbcEncBlocks_all_length (enc : Bytes → Bytes)
    (hlen : ∀ b, b.length = 16 → (enc b).length = 16) :
    ∀ (prev : Bytes) (L : List Bytes), prev.length = 16 → (∀ b ∈ L, b.length = 16) →
      ∀ c ∈ cbcEncBlocks enc prev L, c.length = 16 := by
  intro prev L
  induction L generalizing prev with
  | nil => intro _ _ c hc; simp [cbcEncBlocks] at hc
  | cons b bs ih =>
      intro hprev hL c hc
      have hxb : (xorBytes prev b).length = 16 := by
        rw [length_xorBytes, hprev, hL b (by simp)]
        simp
      simp only [cbcEncBlocks, List.mem_cons] at hc
      rcases hc with h' | h'
      · subst h'; exact hlen _ hxb
      · exact ih (enc (xorBytes prev b)) (hlen _ hxb) (fun x hx => hL x (by simp [hx])) c h'

theorem cbcEncBlocks_all_valid (enc : Bytes → Bytes)
    (hlen : ∀ b, b.length = 16 → (enc b).length = 16)
    (hval : ∀ b, b.length = 16 → ValidBytes b → ValidBytes (enc b)) :
    ∀ (prev : Bytes) (L : List Bytes), prev.length = 16 → ValidBytes prev →
      (∀ b ∈ L, b.length = 16 ∧ ValidBytes b) →
      ∀ c ∈ cbcEncBlocks enc prev L, ValidBytes c := by
  intro prev L
  induction L generalizing prev with
  | nil => intro _ _ _ c hc; simp [cbcEncBlocks] at hc
  | cons b bs ih =>
      intro hprev hprevv hL c hc
      have hb := hL b (by simp)
      have hxl : (xorBytes prev b).length = 16 := by
        rw [length_xorBytes, hprev, hb.1]; simp
      have hxv : ValidBytes (xorBytes prev b) := validBytes_xorBytes prev b hprevv hb.2
      simp only [cbcEncBlocks, List.mem_cons] at hc
      rcases hc with h' | h'
      · subst h'; exact hval _ hxl hxv
      · exact ih (enc (xorBytes prev b)) (hlen _ hxl) (hval _ hxl hxv)
          (fun x hx => hL x (by simp [hx])) c h'

theorem cbcDecBlocks_cbcEncBlocks (enc dec : Bytes → Bytes)
    (hinv : ∀ b, b.length = 16 → ValidBytes b → dec (enc b) = b)
    (hlen : ∀ b, b.length = 16 → (enc b).length = 16)
    (hval : ∀ b, b.length = 16 → ValidBytes b → ValidBytes (enc b)) :
    ∀ (prev : Bytes) (L : List Bytes), prev.length = 16 → ValidBytes prev →
      (∀ b ∈ L, b.length = 16 ∧ ValidBytes b) →
      cbcDecBlocks dec prev (cbcEncBlocks enc prev L) = L := by
  intro prev L
  induction L generalizing prev with
  | nil => intro _ _ _; rfl
  | cons b bs ih =>
      intro hprev hprevv hL
      have hb := hL b (by simp)
      have hxl : (xorBytes prev b).length = 16 := by
        rw [length_xorBytes, hprev, hb.1]; simp
      have hxv : ValidBytes (xorBytes prev b) := validBytes_xorBytes prev b hprevv hb.2
      simp only [cbcEncBlocks, cbcDecBlocks, List.cons.injEq]
      constructor
      · rw [hinv _ hxl hxv]
        exact xorBytes_xorBytes prev b (by omega)
      · exact ih (enc (xorBytes prev b)) (hlen _ hxl) (hval _ hxl hxv)
          (fun x hx => hL x (by simp [hx]))

/-! ## Padding lemmas -/

theorem getLast?_replicate {a : Nat} : ∀ {p : Nat}, 0 < p →
    (List.replicate p a).getLast? = some a := by
  intro p hp
  cases p with
  | zero => omega
  | succ n =>
      rw [List.replicate_succ']
      rw [List.getLast?_append_of_ne_nil _ (by simp)]
      rfl

theorem pkcs7pad_split (P : Bytes) :
    pkcs7pad P = P.take (P.length - P.length % 16) ++
      (P.drop (P.length - P.length % 16) ++
        List.replicate (16 - P.length % 16) (16 - P.length % 16)) := by
  rw [pkcs7pad, ← List.append_assoc, List.take_append_drop]

theorem pkcs7_lastBlock_length (P : Bytes) :
    (P.drop (P.length - P.length % 16) ++
      List.replicate (16 - P.length % 16) (16 - P.length % 16)).length = 16 := by
  simp only [List.length_append, List.length_drop, List.length_replicate]
  have := Nat.mod_lt P.length (show 0 < 16 by norm_num)
  rcases Nat.eq_zero_or_pos P.length with h0 | h0
  · simp [h0]
  · omega

theorem pkcs7stripBlock_lastBlock (P : Bytes) :
    pkcs7stripBlock (P.drop (P.length - P.length % 16) ++
      List.replicate (16 - P.length % 16) (16 - P.length % 16)) =
      some (P.drop (P.length - P.length % 16)) := by
  have hq : P.length % 16 < 16 := Nat.mod_lt _ (by norm_num)
  have hdl : (P.drop (P.length - P.length % 16)).length = P.length % 16 := by
    simp only [List.length_drop]
    omega
  have hp : 0 < 16 - P.length % 16 := by omega
  rw [pkcs7stripBlock]
  rw [List.getLast?_append_of_ne_nil _ (by simp only [ne_eq, List.replicate_eq_nil_iff]; omega)]
  rw [getLast?_replicate hp]
  have hbl := pkcs7_lastBlock_length P
  rw [hbl]
  have hcond : 1 ≤ 16 - P.length % 16 ∧ 16 - P.length % 16 ≤ 16 ∧
      ((P.drop (P.length - P.length % 16) ++
        List.replicate (16 - P.length % 16) (16 - P.length % 16)).drop
          (16 - (16 - P.length % 16))).all
        (fun x => x == 16 - P.length % 16) = true := by
    refine ⟨by omega, by omega, ?_⟩
    have h16 : 16 - (16 - P.length % 16) = (P.drop (P.length - P.length % 16)).length := by
      omega
    rw [h16, List.drop_append_of_le_length (by omega)]
    simp only [List.drop_length, List.nil_append]
    simp [List.all_eq_true, List.mem_replicate]
  dsimp only
  rw [if_pos hcond]
  have h16 : 16 - (16 - P.length % 16) = (P.drop (P.length - P.length % 16)).length := by
    omega
  rw [h16, List.take_append_of_le_length (by omega)]
  simp [List.take_of_length_le]

theorem validBytes_pkcs7pad {P : Bytes} (h : ValidBytes P) : ValidBytes (pkcs7pad P) := by
  intro x hx
  rcases List.mem_append.mp hx with h' | h'
  · exact h x h'
  · have := (List.mem_replicate.mp h').2
    omega

theorem pkcs7pad_length_dvd (P : Bytes) : (16 : Nat) ∣ (pkcs7pad P).length := by
  simp only [pkcs7pad, List.length_append, List.length_replicate]
  refine ⟨P.length / 16 + 1, ?_⟩
  have := Nat.mod_lt P.length (show 0 < 16 by norm_num)
  rcases Nat.eq_zero_or_pos P.length with h0 | h0
  · simp [h0]
  · omega

theorem pkcs7pad_ne_nil (P : Bytes) : pkcs7pad P ≠ [] := by
  simp only [pkcs7pad]
  intro hc
  rcases List.append_eq_nil.mp hc with ⟨_, h2⟩
  have := Nat.mod_lt P.length (show 0 < 16 by norm_num)
  simp [List.replicate_eq_nil_iff] at h2
  omega

theorem chunk16_single {l : Bytes} (h : l.length = 16) : chunk16 l = [l] := by
  have hne : l ≠ [] := by intro hc; subst hc; simp at h
  rw [chunk16_eq hne]
  rw [List.take_of_length_le (by omega), List.drop_eq_nil_of_le (by omega), chunk16_nil]

theorem chunk16_append_div : ∀ {l : Bytes}, (16 : Nat) ∣ l.length → ∀ r : Bytes,
    chunk16 (l ++ r) = chunk16 l ++ chunk16 r := by
  intro l
  induction l using chunk16_induction with
  | h0 => intro _ r; simp [chunk16_nil]
  | hstep l h ih =>
      intro hd r
      have hlen : 0 < l.length := List.length_pos.mpr h
      have h16 : 16 ≤ l.length := by
        rcases hd with ⟨k, hk⟩
        rcases Nat.eq_zero_or_pos k with h0 | h0 <;> omega
      have hne : l ++ r ≠ [] := by
        intro hc
        rcases List.append_eq_nil.mp hc with ⟨h1, _⟩
        exact h h1
      rw [chunk16_eq hne, chunk16_eq h]
      rw [List.take_append_of_le_length (by omega), List.drop_append_of_le_length (by omega)]
      rw [ih (by simp only [List.length_drop]; rcases hd with ⟨k, hk⟩; exact ⟨k - 1, by omega⟩) r]
      simp

theorem chunk16_pkcs7pad (P : Bytes) :
    chunk16 (pkcs7pad P) = chunk16 (P.take (P.length - P.length % 16)) ++
      [P.drop (P.length - P.length % 16) ++
        List.replicate (16 - P.length % 16) (16 - P.length % 16)] := by
  rw [pkcs7pad_split P]
  rw [chunk16_append_div (by simp only [List.length_take]; exact ⟨P.length / 16, by omega⟩) _]
  rw [chunk16_single (pkcs7_lastBlock_length P)]

theorem roundtrip_core (enc dec : Bytes → Bytes) (iv P : Bytes)
    (hiv : iv.length = 16) (hivv : ValidBytes iv) (hP : ValidBytes P)
    (hinv : ∀ b, b.length = 16 → ValidBytes b → dec (enc b) = b)
    (hlen : ∀ b, b.length = 16 → (enc b).length = 16)
    (hval : ∀ b, b.length = 16 → ValidBytes b → ValidBytes (enc b)) :
    cbcDecBlocks dec iv (chunk16 (cbcEncryptBytes enc iv P)) = chunk16 (pkcs7pad P) := by
  have hpadBlocks16 : ∀ b ∈ chunk16 (pkcs7pad P), b.length = 16 :=
    chunk16_all_length (pkcs7pad_length_dvd P)
  have hpadBlocksV : ∀ b ∈ chunk16 (pkcs7pad P), ValidBytes b := by
    intro b hb x hx
    exact validBytes_pkcs7pad hP x (chunk16_subset _ b hb x hx)
  have hencBlocks16 : ∀ c ∈ cbcEncBlocks enc iv (chunk16 (pkcs7pad P)), c.length = 16 :=
    cbcEncBlocks_all_length enc hlen iv _ hiv hpadBlocks16
  rw [cbcEncryptBytes, chunk16_flatten_blocks _ hencBlocks16]
  exact cbcDecBlocks_cbcEncBlocks enc dec hinv hlen hval iv _ hiv hivv
    (fun b hb => ⟨hpadBlocks16 b hb, hpadBlocksV b hb⟩)

theorem cbcEncryptBytes_length_facts (enc : Bytes → Bytes) (iv P : Bytes)
    (hiv : iv.length = 16)
    (hlen : ∀ b, b.length = 16 → (enc b).length = 16) :
    (cbcEncryptBytes enc iv P).length = 16 * (chunk16 (pkcs7pad P)).length ∧
      0 < (chunk16 (pkcs7pad P)).length := by
  constructor
  · rw [cbcEncryptBytes]
    rw [flatten_length_blocks _ (cbcEncBlocks_all_length enc hlen iv _ hiv
      (chunk16_all_length (pkcs7pad_length_dvd P)))]
    rw [length_cbcEncBlocks]
  · rw [chunk16_eq (pkcs7pad_ne_nil P)]
    simp

theorem validBytes_cbcEncryptBytes (enc : Bytes → Bytes) (iv P : Bytes)
    (hiv : iv.length = 16) (hivv : ValidBytes iv) (hP : ValidBytes P)
    (hlen : ∀ b, b.length = 16 → (enc b).length = 16)
    (hval : ∀ b, b.length = 16 → ValidBytes b → ValidBytes (enc b)) :
    ValidBytes (cbcEncryptBytes enc iv P) := by
  intro x hx
  rw [cbcEncryptBytes] at hx
  rcases List.mem_flatten.mp hx with ⟨c, hc, hxc⟩
  refine cbcEncBlocks_all_valid enc hlen hval iv _ hiv hivv ?_ c hc x hxc
  intro b hb
  exact ⟨chunk16_all_length (pkcs7pad_length_dvd P) b hb,
    fun z hz => validBytes_pkcs7pad hP z (chunk16_subset _ b hb z hz)⟩

/-! ## Operation characterisations -/

theorem nativeEncryptText_success (p : NativeProvider) (key ivv text : Bytes)
    (hcap : p.hasCreateCipheriv = true)
    (hk : (b64decode key).length = 32) (hiv : (b64decode ivv).length = 16) :
    nativeEncryptText (some p) key ivv text =
      ⟨[ProviderCall.createCipheriv (b64decode key) (b64decode ivv)],
        [base64encode ((cbcEncryptBytes (p.prims.aesEnc (b64decode key)) (b64decode ivv)
            text).take (16 * (text.length / 16))),
          base64encode ((cbcEncryptBytes (p.prims.aesEnc (b64decode key)) (b64decode ivv)
            text).drop (16 * (text.length / 16)))], none⟩ := by
  simp [nativeEncryptText, hcap, hk, hiv]

theorem nativeDecryptText_of_full (p : NativeProvider) (key ivv text P : Bytes)
    (hcap : p.hasCreateCipheriv = true) (hdcap : p.hasCreateDecipheriv = true)
    (hk : (b64decode key).length = 32) (hiv : (b64decode ivv).length = 16)
    (hP : ValidBytes P)
    (hinv : ∀ b, b.length = 16 → ValidBytes b →
      p.prims.aesDec (b64decode key) (p.prims.aesEnc (b64decode key) b) = b)
    (hlen : ∀ b, b.length = 16 → (p.prims.aesEnc (b64decode key) b).length = 16)
    (hval : ∀ b, b.length = 16 → ValidBytes b →
      ValidBytes (p.prims.aesEnc (b64decode key) b))
    (htext : b64decode text =
      cbcEncryptBytes (p.prims.aesEnc (b64decode key)) (b64decode ivv) P) :
    nativeDecryptText (some p) key ivv text =
      ⟨[ProviderCall.createDecipheriv (b64decode key) (b64decode ivv)],
        [P.take (P.length - P.length % 16), P.drop (P.length - P.length % 16)], none⟩ := by
  have hivv : ValidBytes (b64decode ivv) := validBytes_b64decode ivv
  obtain ⟨hflen, hnb⟩ := cbcEncryptBytes_length_facts (p.prims.aesEnc (b64decode key))
    (b64decode ivv) P hiv hlen
  have hctlen : (b64decode text).length =
      16 * (chunk16 (pkcs7pad P)).length := by rw [htext]; exact hflen
  have htake : (b64decode text).take (16 * ((b64decode text).length / 16)) = b64decode text := by
    have : 16 * ((b64decode text).length / 16) = (b64decode text).length := by
      rw [hctlen]; omega
    rw [this, List.take_length]
  have hguard : ¬((b64decode text).length = 0 ∨ (b64decode text).length % 16 ≠ 0) := by
    rw [hctlen]
    omega
  have hplains : cbcDecBlocks (p.prims.aesDec (b64decode key)) (b64decode ivv)
      (chunk16 (b64decode text)) = chunk16 (pkcs7pad P) := by
    rw [htext]
    exact roundtrip_core _ _ _ _ hiv hivv hP hinv hlen hval
  rw [chunk16_pkcs7pad] at hplains
  have hlast : (cbcDecBlocks (p.prims.aesDec (b64decode key)) (b64decode ivv)
      (chunk16 (b64decode text))).getLast? =
      some (P.drop (P.length - P.length % 16) ++
        List.replicate (16 - P.length % 16) (16 - P.length % 16)) := by
    rw [hplains]
    rw [List.getLast?_append_of_ne_nil _ (by simp)]
    rfl
  have hdropLast : (cbcDecBlocks (p.prims.aesDec (b64decode key)) (b64decode ivv)
      (chunk16 (b64decode text))).dropLast =
      chunk16 (P.take (P.length - P.length % 16)) := by
    rw [hplains]
    simp
  simp only [nativeDecryptText, hcap, hdcap, hk, hiv]
  simp only [Bool.true_eq_false, if_false, ite_false, reduceIte]
  rw [htake]
  simp only [hdropLast]
  rw [if_neg hguard]
  rw [if_neg (show ¬(32 : Nat) ≠ 32 by omega)]
  rw [if_neg (show ¬(16 : Nat) ≠ 16 by omega)]
  rw [hlast]
  dsimp only
  rw [pkcs7stripBlock_lastBlock P]
  dsimp only
  rw [flatten_chunk16]

theorem browserDecryptText_of_full (p : BrowserProvider) (enc : Bytes → Bytes)
    (key ivv text P : Bytes)
    (hsub : p.hasSubtle = true) (himp : p.hasImportKey = true)
    (hdec : p.hasSubtleDecrypt = true)
    (hk : (b64decode key).length = 32) (hiv : (b64decode ivv).length = 16)
    (hP : ValidBytes P)
    (hinv : ∀ b, b.length = 16 → ValidBytes b →
      p.prims.aesDec (b64decode key) (enc b) = b)
    (hlen : ∀ b, b.length = 16 → (enc b).length = 16)
    (hval : ∀ b, b.length = 16 → ValidBytes b → ValidBytes (enc b))
    (htext : b64decode text = cbcEncryptBytes enc (b64decode ivv) P) :
    browserDecryptText (some p) key ivv text =
      ⟨[ProviderCall.importKeyAesCbc (b64decode key),
          ProviderCall.subtleDecrypt (b64decode ivv) (b64decode text)], [P], none⟩ := by
  have hivv : ValidBytes (b64decode ivv) := validBytes_b64decode ivv
  obtain ⟨hflen, hnb⟩ := cbcEncryptBytes_length_facts enc (b64decode ivv) P hiv hlen
  have hctlen : (b64decode text).length = 16 * (chunk16 (pkcs7pad P)).length := by
    rw [htext]; exact hflen
  have hguard : ¬((b64decode text).length = 0 ∨ (b64decode text).length % 16 ≠ 0) := by
    rw [hctlen]; omega
  have hplains : cbcDecBlocks (p.prims.aesDec (b64decode key)) (b64decode ivv)
      (chunk16 (b64decode text)) = chunk16 (pkcs7pad P) := by
    rw [htext]
    exact roundtrip_core _ _ _ _ hiv hivv hP hinv hlen hval
  rw [chunk16_pkcs7pad] at hplains
  have hlast : (cbcDecBlocks (p.prims.aesDec (b64decode key)) (b64decode ivv)
      (chunk16 (b64decode text))).getLast? =
      some (P.drop (P.length - P.length % 16) ++
        List.replicate (16 - P.length % 16) (16 - P.length % 16)) := by
    rw [hplains]
    rw [List.getLast?_append_of_ne_nil _ (by simp)]
    rfl
  have hdropLast : (cbcDecBlocks (p.prims.aesDec (b64decode key)) (b64decode ivv)
      (chunk16 (b64decode text))).dropLast =
      chunk16 (P.take (P.length - P.length % 16)) := by
    rw [hplains]
    simp
  simp only [browserDecryptText, hsub, himp, hdec, hk, hiv]
  simp only [Bool.true_and, Bool.true_eq_false, if_false, ite_false, reduceIte]
  rw [if_neg (show ¬((32 : Nat) ≠ 16 ∧ (32 : Nat) ≠ 24 ∧ (32 : Nat) ≠ 32) by omega)]
  rw [if_neg (show ¬(16 : Nat) ≠ 16 by omega)]
  rw [if_neg hguard]
  rw [hlast]
  dsimp only
  rw [pkcs7stripBlock_lastBlock P]
  dsimp only
  rw [hdropLast, flatten_chunk16, List.take_append_drop]

theorem nativeEncryptText_ciphertext (p : NativeProvider) (key ivv text : Bytes)
    (hcap : p.hasCreateCipheriv = true)
    (hk : (b64decode key).length = 32) (hiv : (b64decode ivv).length = 16)
    (hP : ValidBytes text)
    (hlen : ∀ b, b.length = 16 → (p.prims.aesEnc (b64decode key) b).length = 16)
    (hval : ∀ b, b.length = 16 → ValidBytes b →
      ValidBytes (p.prims.aesEnc (b64decode key) b)) :
    ((nativeEncryptText (some p) key ivv text).emitted.map b64decode).flatten =
      cbcEncryptBytes (p.prims.aesEnc (b64decode key)) (b64decode ivv) text := by
  have hfull : ValidBytes (cbcEncryptBytes (p.prims.aesEnc (b64decode key))
      (b64decode ivv) text) :=
    validBytes_cbcEncryptBytes _ _ _ hiv (validBytes_b64decode ivv) hP hlen hval
  rw [nativeEncryptText_success p key ivv text hcap hk hiv]
  simp only [List.map_cons, List.map_nil, List.flatten_cons, List.flatten_nil,
    List.append_nil]
  rw [b64decode_base64encode _ (fun x hx => hfull x (List.take_subset _ _ hx)),
    b64decode_base64encode _ (fun x hx => hfull x (List.drop_subset _ _ hx)),
    List.take_append_drop]

/-! ## Claim theorems -/

/-- Claim C1: for every key text whose base64 decoding is 32 bytes, every salt
text whose base64 decoding is 16 bytes, and every plaintext (empty, one-block
and multi-block payloads included), decrypting with the same key and salt the
ciphertext produced by encrypt succeeds and the concatenation of the chunks
that decrypt emits to its sink equals the original plaintext. The ciphertext
fed to decrypt is the byte sequence produced by encrypt, namely the
concatenation of the decoded chunks encrypt emitted, re-encoded as base64; the
injected AES-256 block permutation is assumed invertible and
block-preserving. -/
theorem c1_native_round_trip (p : NativeProvider) (K S P : Bytes)
    (hcap : p.hasCreateCipheriv = true) (hdcap : p.hasCreateDecipheriv = true)
    (hK : (b64decode K).length = 32) (hS : (b64decode S).length = 16)
    (hP : ValidBytes P)
    (hinv : ∀ b, b.length = 16 → ValidBytes b →
      p.prims.aesDec (b64decode K) (p.prims.aesEnc (b64decode K) b) = b)
    (hlen : ∀ b, b.length = 16 → (p.prims.aesEnc (b64decode K) b).length = 16)
    (hval : ∀ b, b.length = 16 → ValidBytes b →
      ValidBytes (p.prims.aesEnc (b64decode K) b)) :
    (nativeEncryptText (some p) K S P).failure = none ∧
    (nativeDecryptText (some p) K S
      (base64encode (((nativeEncryptText (some p) K S P).emitted.map b64decode).flatten))).failure
        = none ∧
    (nativeDecryptText (some p) K S
      (base64encode (((nativeEncryptText (some p) K S P).emitted.map b64decode).flatten))).emitted.flatten
        = P := by
  have hfull : ValidBytes (cbcEncryptBytes (p.prims.aesEnc (b64decode K))
      (b64decode S) P) :=
    validBytes_cbcEncryptBytes _ _ _ hS (validBytes_b64decode S) hP hlen hval
  have htext : b64decode (base64encode
      (((nativeEncryptText (some p) K S P).emitted.map b64decode).flatten)) =
      cbcEncryptBytes (p.prims.aesEnc (b64decode K)) (b64decode S) P := by
    rw [nativeEncryptText_ciphertext p K S P hcap hK hS hP hlen hval]
    exact b64decode_base64encode _ hfull
  refine ⟨?_, ?_, ?_⟩
  · rw [nativeEncryptText_success p K S P hcap hK hS]
  · rw [nativeDecryptText_of_full p K S _ P hcap hdcap hK hS hP hinv hlen hval htext]
  · rw [nativeDecryptText_of_full p K S _ P hcap hdcap hK hS hP hinv hlen hval htext]
    simp [List.take_append_drop]

/-- Witness for C1 at a concrete provider (identity block permutation), a
32-byte key, a 16-byte salt and the two-byte plaintext [104, 105]. -/
theorem c1_native_round_trip_witness :
    (nativeEncryptText (some npFull) keyText32 saltText16 [104, 105]).failure = none ∧
    (nativeDecryptText (some npFull) keyText32 saltText16
      (base64encode (((nativeEncryptText (some npFull) keyText32 saltText16
        [104, 105]).emitted.map b64decode).flatten))).failure = none ∧
    (nativeDecryptText (some npFull) keyText32 saltText16
      (base64encode (((nativeEncryptText (some npFull) keyText32 saltText16
        [104, 105]).emitted.map b64decode).flatten))).emitted.flatten = [104, 105] :=
  c1_native_round_trip npFull keyText32 saltText16 [104, 105] rfl rfl (by decide)
    (by decide) (by decide) (fun _ _ _ => rfl) (fun _ h => h) (fun _ _ hv => hv)

/-- Claim C2: with the two environments backed by the same PBKDF2 primitive
and mutually inverse AES block permutations, the key derived in the browser
binding equals bit for bit the key derived in the native binding for every
password and salt, and a ciphertext produced by native encrypt decrypts under
browser decrypt (same key text and salt text) back to the original
plaintext, delivered in one sink emission. -/
theorem c2_cross_environment (np : NativeProvider) (bp : BrowserProvider)
    (pw S K P : Bytes)
    (hnr : np.hasRandomBytes = true) (hnp : np.hasPbkdf2Sync = true)
    (hbs : bp.hasSubtle = true) (hbi : bp.hasImportKey = true)
    (hbd : bp.hasDeriveBits = true) (hbdec : bp.hasSubtleDecrypt = true)
    (hncap : np.hasCreateCipheriv = true)
    (hshared : bp.prims.pbkdf2sha256 = np.prims.pbkdf2sha256)
    (hK : (b64decode K).length = 32) (hS : (b64decode S).length = 16)
    (hP : ValidBytes P)
    (hinv : ∀ b, b.length = 16 → ValidBytes b →
      bp.prims.aesDec (b64decode K) (np.prims.aesEnc (b64decode K) b) = b)
    (hlen : ∀ b, b.length = 16 → (np.prims.aesEnc (b64decode K) b).length = 16)
    (hval : ∀ b, b.length = 16 → ValidBytes b →
      ValidBytes (np.prims.aesEnc (b64decode K) b)) :
    (browserGenerateKey (some bp) pw S).2 = (nativeGenerateKey (some np) pw S).2 ∧
    (browserDecryptText (some bp) K S
      (base64encode (((nativeEncryptText (some np) K S P).emitted.map b64decode).flatten))).failure
        = none ∧
    (browserDecryptText (some bp) K S
      (base64encode (((nativeEncryptText (some np) K S P).emitted.map b64decode).flatten))).emitted
        = [P] := by
  have hfull : ValidBytes (cbcEncryptBytes (np.prims.aesEnc (b64decode K))
      (b64decode S) P) :=
    validBytes_cbcEncryptBytes _ _ _ hS (validBytes_b64decode S) hP hlen hval
  have htext : b64decode (base64encode
      (((nativeEncryptText (some np) K S P).emitted.map b64decode).flatten)) =
      cbcEncryptBytes (np.prims.aesEnc (b64decode K)) (b64decode S) P := by
    rw [nativeEncryptText_ciphertext np K S P hncap hK hS hP hlen hval]
    exact b64decode_base64encode _ hfull
  refine ⟨?_, ?_, ?_⟩
  · simp [browserGenerateKey, nativeGenerateKey, hnr, hnp, hbs, hbi, hbd, hshared]
  · rw [browserDecryptText_of_full bp (np.prims.aesEnc (b64decode K)) K S _ P hbs hbi hbdec
      hK hS hP hinv hlen hval htext]
  · rw [browserDecryptText_of_full bp (np.prims.aesEnc (b64decode K)) K S _ P hbs hbi hbdec
      hK hS hP hinv hlen hval htext]

/-- Witness for C2 at concrete providers sharing the identity block
permutation and the same PBKDF2 model, the password [112, 119], a 32-byte key
and a 16-byte salt, and the plaintext [104, 105]. -/
theorem c2_cross_environment_witness :
    (browserGenerateKey (some bpFull) pw0 saltText16).2 =
      (nativeGenerateKey (some npFull) pw0 saltText16).2 ∧
    (browserDecryptText (some bpFull) keyText32 saltText16
      (base64encode (((nativeEncryptText (some npFull) keyText32 saltText16
        [104, 105]).emitted.map b64decode).flatten))).failure = none ∧
    (browserDecryptText (some bpFull) keyText32 saltText16
      (base64encode (((nativeEncryptText (some npFull) keyText32 saltText16
        [104, 105]).emitted.map b64decode).flatten))).emitted = [[104, 105]] :=
  c2_cross_environment npFull bpFull pw0 saltText16 keyText32 [104, 105]
    rfl rfl rfl rfl rfl rfl rfl rfl (by decide) (by decide) (by decide)
    (fun _ _ _ => rfl) (fun _ h => h) (fun _ _ hv => hv)

/-- Claim C3: in both environments the fingerprint operation is key
derivation composed with itself: when the first derivation succeeds with key
text k, the fingerprint outcome equals the outcome of deriving again with k
(the base64 text of the intermediate key) as the password and the same
salt. -/
theorem c3_fingerprint_double_derivation (stN : Option NativeProvider)
    (stB : Option BrowserProvider) (pw ivv kN kB : Bytes)
    (h1 : (nativeGenerateKey stN pw ivv).2 = .ok kN)
    (h2 : (browserGenerateKey stB pw ivv).2 = .ok kB) :
    (nativeGenerateHash stN pw ivv).2 = (nativeGenerateKey stN kN ivv).2 ∧
    (browserGenerateHash stB pw ivv).2 = (browserGenerateKey stB kB ivv).2 := by
  constructor
  · simp only [nativeGenerateHash, h1]
  · simp only [browserGenerateHash, h2]

/-- Witness for C3 at the concrete full providers, password [112, 119] and a
16-byte salt; the intermediate key texts are spelled out. -/
theorem c3_fingerprint_double_derivation_witness :
    (nativeGenerateHash (some npFull) pw0 saltText16).2 =
      (nativeGenerateKey (some npFull)
        (base64encode (plainPrims.pbkdf2sha256 pw0 (b64decode saltText16) 100000 32))
        saltText16).2 ∧
    (browserGenerateHash (some bpFull) pw0 saltText16).2 =
      (browserGenerateKey (some bpFull)
        (base64encode (plainPrims.pbkdf2sha256 pw0 (b64decode saltText16) 100000 (256 / 8)))
        saltText16).2 :=
  c3_fingerprint_double_derivation (some npFull) (some bpFull) pw0 saltText16 _ _ rfl rfl

/-- Claim C4: in both environments key derivation invokes the provider PBKDF2
primitive (HMAC-SHA256) exactly once, over the password bytes and the raw
base64-decoded salt bytes, with the fixed constants 100000 iterations and a
32-byte (256-bit) output, and returns the derived bytes re-encoded as base64;
the parameters are literals of the bindings, not call arguments, and the
result is a function of the password and salt alone, hence bit-for-bit
deterministic. -/
theorem c4_kdf_parameters (np : NativeProvider) (bp : BrowserProvider) (pw ivv : Bytes)
    (hnr : np.hasRandomBytes = true) (hnp : np.hasPbkdf2Sync = true)
    (hbs : bp.hasSubtle = true) (hbi : bp.hasImportKey = true)
    (hbd : bp.hasDeriveBits = true) :
    nativeGenerateKey (some np) pw ivv =
      ([ProviderCall.pbkdf2 pw (b64decode ivv) 100000 32],
        .ok (base64encode (np.prims.pbkdf2sha256 pw (b64decode ivv) 100000 32))) ∧
    browserGenerateKey (some bp) pw ivv =
      ([ProviderCall.importKeyPbkdf2 pw, ProviderCall.deriveBits (b64decode ivv) 100000 256],
        .ok (base64encode (bp.prims.pbkdf2sha256 pw (b64decode ivv) 100000 (256 / 8)))) := by
  constructor
  · simp [nativeGenerateKey, hnr, hnp]
  · simp [browserGenerateKey, hbs, hbi, hbd]

/-- Witness for C4 at the concrete full providers, password [112, 119] and a
16-byte salt. -/
theorem c4_kdf_parameters_witness :
    nativeGenerateKey (some npFull) pw0 saltText16 =
      ([ProviderCall.pbkdf2 pw0 (b64decode saltText16) 100000 32],
        .ok (base64encode (npFull.prims.pbkdf2sha256 pw0 (b64decode saltText16) 100000 32))) ∧
    browserGenerateKey (some bpFull) pw0 saltText16 =
      ([ProviderCall.importKeyPbkdf2 pw0,
          ProviderCall.deriveBits (b64decode saltText16) 100000 256],
        .ok (base64encode (bpFull.prims.pbkdf2sha256 pw0 (b64decode saltText16) 100000
          (256 / 8)))) :=
  c4_kdf_parameters npFull bpFull pw0 saltText16 rfl rfl rfl rfl rfl

theorem nativeDecryptText_success_two_emissions (st : Option NativeProvider)
    (key ivv text : Bytes)
    (h : (nativeDecryptText st key ivv text).failure = none) :
    (nativeDecryptText st key ivv text).emitted.length = 2 := by
  revert h
  unfold nativeDecryptText
  cases st with
  | none => intro h; simp at h
  | some p =>
      dsimp only
      repeat' split
      all_goals intro h
      all_goals first | rfl | simp at h

theorem browserDecryptText_success_one_emission (st : Option BrowserProvider)
    (key ivv text : Bytes)
    (h : (browserDecryptText st key ivv text).failure = none) :
    (browserDecryptText st key ivv text).emitted.length = 1 := by
  revert h
  unfold browserDecryptText
  cases st with
  | none => intro h; simp at h
  | some p =>
      dsimp only
      repeat' split
      all_goals intro h
      all_goals first | rfl | simp at h

/-- Claim C10: on success, native encrypt invokes the sink exactly twice,
first with the base64 of the cipher update output over the whole input (its
complete 16-byte blocks) and then with the base64 of the final padded block;
native decrypt on success invokes the sink exactly twice, first with the
update output (the decryption of every complete block but the withheld last
one) and then with the padding-stripped final block; browser decrypt on
success invokes it exactly once, with the entire decrypted plaintext (the
update part followed by the stripped final block); and every successful
native decrypt makes exactly two sink invocations, every successful browser
decrypt exactly one. -/
theorem c10_sink_invocations (p : NativeProvider) (K S P : Bytes)
    (hcap : p.hasCreateCipheriv = true)
    (hK : (b64decode K).length = 32) (hS : (b64decode S).length = 16)
    (pd : NativeProvider) (Kd Sd Td lb s : Bytes)
    (hdc : pd.hasCreateCipheriv = true) (hdd : pd.hasCreateDecipheriv = true)
    (hKd : (b64decode Kd).length = 32) (hSd : (b64decode Sd).length = 16)
    (hmodD : (b64decode Td).length % 16 = 0) (hneD : (b64decode Td).length ≠ 0)
    (hlastD : (cbcDecBlocks (pd.prims.aesDec (b64decode Kd)) (b64decode Sd)
        (chunk16 (b64decode Td))).getLast? = some lb)
    (hstripD : pkcs7stripBlock lb = some s)
    (pb : BrowserProvider) (Kb Sb Tb lbB sB : Bytes)
    (hbs : pb.hasSubtle = true) (hbi : pb.hasImportKey = true)
    (hbdec : pb.hasSubtleDecrypt = true)
    (hKb : ¬((b64decode Kb).length ≠ 16 ∧ (b64decode Kb).length ≠ 24 ∧
      (b64decode Kb).length ≠ 32))
    (hSb : (b64decode Sb).length = 16)
    (hmodB : (b64decode Tb).length % 16 = 0) (hneB : (b64decode Tb).length ≠ 0)
    (hlastB : (cbcDecBlocks (pb.prims.aesDec (b64decode Kb)) (b64decode Sb)
        (chunk16 (b64decode Tb))).getLast? = some lbB)
    (hstripB : pkcs7stripBlock lbB = some sB)
    (stD : Option NativeProvider) (kD iD tD : Bytes)
    (hD : (nativeDecryptText stD kD iD tD).failure = none)
    (stB : Option BrowserProvider) (kB iB tB : Bytes)
    (hB : (browserDecryptText stB kB iB tB).failure = none) :
    (nativeEncryptText (some p) K S P).emitted =
      [base64encode ((cbcEncryptBytes (p.prims.aesEnc (b64decode K)) (b64decode S) P).take
          (16 * (P.length / 16))),
        base64encode ((cbcEncryptBytes (p.prims.aesEnc (b64decode K)) (b64decode S) P).drop
          (16 * (P.length / 16)))] ∧
    nativeDecryptText (some pd) Kd Sd Td =
      ⟨[ProviderCall.createDecipheriv (b64decode Kd) (b64decode Sd)],
        [(cbcDecBlocks (pd.prims.aesDec (b64decode Kd)) (b64decode Sd)
            (chunk16 (b64decode Td))).dropLast.flatten, s], none⟩ ∧
    browserDecryptText (some pb) Kb Sb Tb =
      ⟨[ProviderCall.importKeyAesCbc (b64decode Kb),
          ProviderCall.subtleDecrypt (b64decode Sb) (b64decode Tb)],
        [(cbcDecBlocks (pb.prims.aesDec (b64decode Kb)) (b64decode Sb)
            (chunk16 (b64decode Tb))).dropLast.flatten ++ sB], none⟩ ∧
    (nativeDecryptText stD kD iD tD).emitted.length = 2 ∧
    (browserDecryptText stB kB iB tB).emitted.length = 1 := by
  have htakeD : (b64decode Td).take (16 * ((b64decode Td).length / 16)) = b64decode Td := by
    have : 16 * ((b64decode Td).length / 16) = (b64decode Td).length := by omega
    rw [this, List.take_length]
  have hguardD : ¬((b64decode Td).length = 0 ∨ (b64decode Td).length % 16 ≠ 0) := by omega
  have hguardB : ¬((b64decode Tb).length = 0 ∨ (b64decode Tb).length % 16 ≠ 0) := by omega
  refine ⟨?_, ?_, ?_, nativeDecryptText_success_two_emissions _ _ _ _ hD,
    browserDecryptText_success_one_emission _ _ _ _ hB⟩
  · rw [nativeEncryptText_success p K S P hcap hK hS]
  · simp only [nativeDecryptText, hdc, hdd]
    simp only [Bool.true_eq_false, if_false, ite_false, reduceIte]
    rw [htakeD]
    rw [if_neg (show ¬(b64decode Kd).length ≠ 32 by omega)]
    rw [if_neg (show ¬(b64decode Sd).length ≠ 16 by omega)]
    rw [if_neg hguardD]
    rw [hlastD]
    dsimp only
    rw [hstripD]
  · simp only [browserDecryptText, hbs, hbi, hbdec]
    simp only [Bool.true_and, Bool.true_eq_false, if_false, ite_false, reduceIte]
    rw [if_neg hKb]
    rw [if_neg (show ¬(b64decode Sb).length ≠ 16 by omega)]
    rw [if_neg hguardB]
    rw [hlastB]
    dsimp only
    rw [hstripB]

/-- Witness for C10 at concrete inputs: encryption of [104, 105]; native and
browser decryption of a two-block ciphertext (identity permutation, zero IV)
whose update output is the first plaintext block of sixteen 65s and whose
stripped final block is [104, 105]; plus a further successful decrypt of a
lone padding block on each path for the count facts. -/
theorem c10_sink_invocations_witness :
    (nativeEncryptText (some npFull) keyText32 saltText16 [104, 105]).emitted =
      [base64encode ((cbcEncryptBytes (npFull.prims.aesEnc (b64decode keyText32))
          (b64decode saltText16) [104, 105]).take (16 * ([104, 105].length / 16))),
        base64encode ((cbcEncryptBytes (npFull.prims.aesEnc (b64decode keyText32))
          (b64decode saltText16) [104, 105]).drop (16 * ([104, 105].length / 16)))] ∧
    nativeDecryptText (some npFull) keyText32 saltText16 ctTwoBlocks =
      ⟨[ProviderCall.createDecipheriv (b64decode keyText32) (b64decode saltText16)],
        [(cbcDecBlocks (npFull.prims.aesDec (b64decode keyText32)) (b64decode saltText16)
            (chunk16 (b64decode ctTwoBlocks))).dropLast.flatten, [104, 105]], none⟩ ∧
    browserDecryptText (some bpFull) keyText32 saltText16 ctTwoBlocks =
      ⟨[ProviderCall.importKeyAesCbc (b64decode keyText32),
          ProviderCall.subtleDecrypt (b64decode saltText16) (b64decode ctTwoBlocks)],
        [(cbcDecBlocks (bpFull.prims.aesDec (b64decode keyText32)) (b64decode saltText16)
            (chunk16 (b64decode ctTwoBlocks))).dropLast.flatten ++ [104, 105]], none⟩ ∧
    (nativeDecryptText (some npFull) keyText32 saltText16 ctPadOnly).emitted.length = 2 ∧
    (browserDecryptText (some bpFull) keyText32 saltText16 ctPadOnly).emitted.length = 1 :=
  c10_sink_invocations npFull keyText32 saltText16 [104, 105] rfl (by decide) (by decide)
    npFull keyText32 saltText16 ctTwoBlocks (104 :: 105 :: List.replicate 14 14) [104, 105]
    rfl rfl (by decide) (by decide) (by decide) (by decide) (by decide) (by decide)
    bpFull keyText32 saltText16 ctTwoBlocks (104 :: 105 :: List.replicate 14 14) [104, 105]
    rfl rfl rfl (by decide) (by decide) (by decide) (by decide) (by decide) (by decide)
    (some npFull) keyText32 saltText16 ctPadOnly (by decide)
    (some bpFull) keyText32 saltText16 ctPadOnly (by decide)

/-- Counterexample to C5 as stated: decrypting a two-block ciphertext whose
final-block padding validation fails (identity block permutation, two equal
blocks of 65, zero IV, so the last plaintext block is all zeros and its
padding is invalid) does fail with the distinct bad-decrypt error, but the
sink has already been invoked with the nonempty update output, so plaintext
bytes that are not the padding-validated plaintext do reach the sink rather
than nothing being emitted. -/
theorem c5_counterexample :
    (nativeDecryptText (some npFull) keyText32 saltText16 ctTwoEqualBlocks).failure =
      some .badDecrypt ∧
    (nativeDecryptText (some npFull) keyText32 saltText16 ctTwoEqualBlocks).emitted =
      [List.replicate 16 65] ∧
    (nativeDecryptText (some npFull) keyText32 saltText16 ctTwoEqualBlocks).emitted ≠ [] := by
  decide

/-- Claim C5 amended: when the final decrypted block fails PKCS padding
validation under the given key and salt, decrypt fails with the distinct
invalid-padding error (bad decrypt natively, OperationError in the browser)
rather than succeeding; the browser binding emits nothing to the sink, while
the native binding has already invoked the sink exactly once with the update
output (the decryption of all but the last block) before the failure. -/
theorem c5_padding_failure (p : NativeProvider) (bp : BrowserProvider) (K S T lb : Bytes)
    (hcap : p.hasCreateCipheriv = true) (hdcap : p.hasCreateDecipheriv = true)
    (hbs : bp.hasSubtle = true) (hbi : bp.hasImportKey = true)
    (hbdec : bp.hasSubtleDecrypt = true)
    (hsame : bp.prims.aesDec = p.prims.aesDec)
    (hK : (b64decode K).length = 32) (hS : (b64decode S).length = 16)
    (hmod : (b64decode T).length % 16 = 0) (hne : (b64decode T).length ≠ 0)
    (hlast : (cbcDecBlocks (p.prims.aesDec (b64decode K)) (b64decode S)
        (chunk16 (b64decode T))).getLast? = some lb)
    (hpad : pkcs7stripBlock lb = none) :
    (nativeDecryptText (some p) K S T).failure = some .badDecrypt ∧
    (nativeDecryptText (some p) K S T).emitted =
      [(cbcDecBlocks (p.prims.aesDec (b64decode K)) (b64decode S)
          (chunk16 (b64decode T))).dropLast.flatten] ∧
    (browserDecryptText (some bp) K S T).failure = some .operationError ∧
    (browserDecryptText (some bp) K S T).emitted = [] := by
  have htake : (b64decode T).take (16 * ((b64decode T).length / 16)) = b64decode T := by
    have : 16 * ((b64decode T).length / 16) = (b64decode T).length := by omega
    rw [this, List.take_length]
  have hguard : ¬((b64decode T).length = 0 ∨ (b64decode T).length % 16 ≠ 0) := by omega
  have hn : (nativeDecryptText (some p) K S T).failure = some .badDecrypt ∧
      (nativeDecryptText (some p) K S T).emitted =
        [(cbcDecBlocks (p.prims.aesDec (b64decode K)) (b64decode S)
            (chunk16 (b64decode T))).dropLast.flatten] := by
    simp only [nativeDecryptText, hcap, hdcap]
    simp only [Bool.true_eq_false, if_false, ite_false, reduceIte]
    rw [htake]
    rw [if_neg (show ¬(b64decode K).length ≠ 32 by omega)]
    rw [if_neg (show ¬(b64decode S).length ≠ 16 by omega)]
    rw [if_neg hguard]
    rw [hlast]
    dsimp only
    rw [hpad]
    exact ⟨rfl, rfl⟩
  have hb : (browserDecryptText (some bp) K S T).failure = some .operationError ∧
      (browserDecryptText (some bp) K S T).emitted = [] := by
    simp only [browserDecryptText, hbs, hbi, hbdec]
    simp only [Bool.true_and, Bool.true_eq_false, if_false, ite_false, reduceIte]
    rw [if_neg (show ¬((b64decode K).length ≠ 16 ∧ (b64decode K).length ≠ 24 ∧
      (b64decode K).length ≠ 32) by omega)]
    rw [if_neg (show ¬(b64decode S).length ≠ 16 by omega)]
    rw [if_neg hguard]
    rw [hsame, hlast]
    dsimp only
    rw [hpad]
    exact ⟨rfl, rfl⟩
  exact ⟨hn.1, hn.2, hb.1, hb.2⟩

/-- Witness for C5 amended at the concrete two-equal-block ciphertext under
the identity block permutation, where the last decrypted block is all
zeros. -/
theorem c5_padding_failure_witness :
    (nativeDecryptText (some npFull) keyText32 saltText16 ctTwoEqualBlocks).failure =
      some .badDecrypt ∧
    (nativeDecryptText (some npFull) keyText32 saltText16 ctTwoEqualBlocks).emitted =
      [(cbcDecBlocks (npFull.prims.aesDec (b64decode keyText32)) (b64decode saltText16)
          (chunk16 (b64decode ctTwoEqualBlocks))).dropLast.flatten] ∧
    (browserDecryptText (some bpFull) keyText32 saltText16 ctTwoEqualBlocks).failure =
      some .operationError ∧
    (browserDecryptText (some bpFull) keyText32 saltText16 ctTwoEqualBlocks).emitted = [] :=
  c5_padding_failure npFull bpFull keyText32 saltText16 ctTwoEqualBlocks
    (List.replicate 16 0) rfl rfl rfl rfl rfl rfl (by decide) (by decide) (by decide)
    (by decide) (by decide) (by decide)

/-- Claim C6 names the intended behaviour, but the code checks the wrong
capability: nativeGenerateKey tests randomBytes, not pbkdf2Sync, so with a
provider supplying randomBytes but no PBKDF2 primitive the derivation dies
with a TypeError from invoking the missing pbkdf2Sync instead of the
capability-unsupported error; the browser binding likewise only checks
subtle.importKey and performs the import work before dying on a missing
deriveBits. No fallback derivation exists on any path. -/
theorem c6_missing_pbkdf2_is_type_error :
    npNoPbkdf2.hasPbkdf2Sync = false ∧ npNoPbkdf2.hasRandomBytes = true ∧
    nativeGenerateKey (nativeInit npNoPbkdf2) pw0 saltText16 = ([], .err .typeError) ∧
    (nativeGenerateKey (nativeInit npNoPbkdf2) pw0 saltText16).2.isCapabilityErr = false ∧
    bpNoDeriveBits.hasDeriveBits = false ∧ bpNoDeriveBits.hasImportKey = true ∧
    browserGenerateKey (browserInit bpNoDeriveBits) pw0 saltText16 =
      ([ProviderCall.importKeyPbkdf2 pw0], .err .typeError) ∧
    (browserGenerateKey (browserInit bpNoDeriveBits) pw0 saltText16).2.isCapabilityErr =
      false := by
  decide

/-- Claim C7 holds for encrypt (a missing createCipheriv makes it fail fast
with the capability error, no primitive call, no sink invocation), but
decrypt checks createCipheriv while needing createDecipheriv: with a provider
supplying createCipheriv but not createDecipheriv, decrypt passes its
capability check and dies with a TypeError instead of the
capability-unsupported error. -/
theorem c7_decrypt_checks_wrong_capability :
    nativeEncryptText (nativeInit npNoCipher) keyText32 saltText16 [104, 105] =
      ⟨[], [], some (.capability .createCipheriv)⟩ ∧
    npNoDecipher.hasCreateCipheriv = true ∧ npNoDecipher.hasCreateDecipheriv = false ∧
    nativeDecryptText (nativeInit npNoDecipher) keyText32 saltText16 ctPadOnly =
      ⟨[], [], some .typeError⟩ ∧
    (nativeDecryptText (nativeInit npNoDecipher) keyText32 saltText16
      ctPadOnly).isCapabilityErr = false := by
  decide

/-- Counterexample to C8 as stated: the browser decrypt path accepts a key
whose base64 decoding has 16 bytes (WebCrypto importKey admits 128, 192 and
256-bit AES keys), so the call does not fail with an invalid-parameter error
at all; moreover on the native path the length rejection is raised by the
cipher-context-creation primitive itself, which has then already been
invoked, as its recorded provider call shows. -/
theorem c8_counterexample :
    (b64decode keyText16).length = 16 ∧
    (browserDecryptText (some bpFull) keyText16 saltText16 ctPadOnly).failure = none ∧
    (nativeEncryptText (some npFull) keyText16 saltText16 [104, 105]).calls =
      [ProviderCall.createCipheriv (b64decode keyText16) (b64decode saltText16)] := by
  decide

/-- Claim C8 amended: on the native path a key that does not decode to 32
bytes makes encrypt and decrypt fail with the invalid-key-length error, and a
32-byte key with a salt that does not decode to 16 bytes makes both encrypt
and decrypt fail with the invalid-IV-length error; but the rejection is
raised by the provider
cipher-context creation, which is invoked (and recorded) first, not before
any primitive call. On the browser path importKey raises DataError only when
the key decodes to none of 16, 24 or 32 bytes, and a non-16-byte IV is
rejected with OperationError by the decrypt primitive; a 16- or 24-byte key
is accepted. -/
theorem c8_invalid_parameter (p : NativeProvider) (bp : BrowserProvider)
    (Kn Kb Kg Sb S T P : Bytes)
    (hcap : p.hasCreateCipheriv = true) (hdcap : p.hasCreateDecipheriv = true)
    (hbs : bp.hasSubtle = true) (hbi : bp.hasImportKey = true)
    (hbdec : bp.hasSubtleDecrypt = true)
    (hKn : (b64decode Kn).length ≠ 32)
    (hKb : (b64decode Kb).length ≠ 16 ∧ (b64decode Kb).length ≠ 24 ∧
      (b64decode Kb).length ≠ 32)
    (hKg : (b64decode Kg).length = 32)
    (hSb : (b64decode Sb).length ≠ 16) :
    nativeEncryptText (some p) Kn S P =
      ⟨[ProviderCall.createCipheriv (b64decode Kn) (b64decode S)], [],
        some .invalidKeyLength⟩ ∧
    nativeDecryptText (some p) Kn S T =
      ⟨[ProviderCall.createDecipheriv (b64decode Kn) (b64decode S)], [],
        some .invalidKeyLength⟩ ∧
    nativeEncryptText (some p) Kg Sb P =
      ⟨[ProviderCall.createCipheriv (b64decode Kg) (b64decode Sb)], [],
        some .invalidIvLength⟩ ∧
    nativeDecryptText (some p) Kg Sb T =
      ⟨[ProviderCall.createDecipheriv (b64decode Kg) (b64decode Sb)], [],
        some .invalidIvLength⟩ ∧
    browserDecryptText (some bp) Kb S T =
      ⟨[ProviderCall.importKeyAesCbc (b64decode Kb)], [], some .dataError⟩ ∧
    (browserDecryptText (some bp) Kg Sb T).failure = some .operationError := by
  refine ⟨?_, ?_, ?_, ?_, ?_, ?_⟩
  · simp only [nativeEncryptText, hcap]
    simp only [Bool.true_eq_false, if_false, ite_false, reduceIte]
    rw [if_pos hKn]
  · simp only [nativeDecryptText, hcap, hdcap]
    simp only [Bool.true_eq_false, if_false, ite_false, reduceIte]
    rw [if_pos hKn]
  · simp only [nativeEncryptText, hcap]
    simp only [Bool.true_eq_false, if_false, ite_false, reduceIte]
    rw [if_neg (show ¬(b64decode Kg).length ≠ 32 by omega)]
    rw [if_pos hSb]
  · simp only [nativeDecryptText, hcap, hdcap]
    simp only [Bool.true_eq_false, if_false, ite_false, reduceIte]
    rw [if_neg (show ¬(b64decode Kg).length ≠ 32 by omega)]
    rw [if_pos hSb]
  · simp only [browserDecryptText, hbs, hbi]
    simp only [Bool.true_and, Bool.true_eq_false, if_false, ite_false, reduceIte]
    rw [if_pos hKb]
  · simp only [browserDecryptText, hbs, hbi, hbdec]
    simp only [Bool.true_and, Bool.true_eq_false, if_false, ite_false, reduceIte]
    rw [if_neg (show ¬((b64decode Kg).length ≠ 16 ∧ (b64decode Kg).length ≠ 24 ∧
      (b64decode Kg).length ≠ 32) by omega)]
    rw [if_pos hSb]

/-- Witness for C8 amended with a 16-byte key on the native path, an 8-byte
key on the browser path, and a 4-byte salt for the IV cases. -/
theorem c8_invalid_parameter_witness :
    nativeEncryptText (some npFull) keyText16 saltText16 [104, 105] =
      ⟨[ProviderCall.createCipheriv (b64decode keyText16) (b64decode saltText16)], [],
        some .invalidKeyLength⟩ ∧
    nativeDecryptText (some npFull) keyText16 saltText16 ctPadOnly =
      ⟨[ProviderCall.createDecipheriv (b64decode keyText16) (b64decode saltText16)], [],
        some .invalidKeyLength⟩ ∧
    nativeEncryptText (some npFull) keyText32 saltText4 [104, 105] =
      ⟨[ProviderCall.createCipheriv (b64decode keyText32) (b64decode saltText4)], [],
        some .invalidIvLength⟩ ∧
    nativeDecryptText (some npFull) keyText32 saltText4 ctPadOnly =
      ⟨[ProviderCall.createDecipheriv (b64decode keyText32) (b64decode saltText4)], [],
        some .invalidIvLength⟩ ∧
    browserDecryptText (some bpFull) keyText8 saltText16 ctPadOnly =
      ⟨[ProviderCall.importKeyAesCbc (b64decode keyText8)], [], some .dataError⟩ ∧
    (browserDecryptText (some bpFull) keyText32 saltText4 ctPadOnly).failure =
      some .operationError :=
  c8_invalid_parameter npFull bpFull keyText16 keyText8 keyText32 saltText4 saltText16
    ctPadOnly [104, 105] rfl rfl rfl rfl rfl (by decide) (by decide) (by decide) (by decide)

/-- Counterexample to C9 as stated: a provider supplying the primitive an
operation actually needs does not make its capability branch unreachable,
because the branch tests a different primitive. A provider with pbkdf2Sync
but without randomBytes makes key derivation hit the capability error, and a
provider with createDecipheriv but without createCipheriv makes decrypt hit
the capability error. -/
theorem c9_counterexample :
    npNoRandom.hasPbkdf2Sync = true ∧
    (nativeGenerateKey (nativeInit npNoRandom) pw0 saltText16).2 =
      .err (.capability .randomBytes) ∧
    npNoCipher.hasCreateDecipheriv = true ∧
    (nativeDecryptText (nativeInit npNoCipher) keyText32 saltText16 ctPadOnly).failure =
      some (.capability .createCipheriv) := by
  decide

/-- Claim C9 amended: every operation invoked before init dereferences the
undefined module-level handle and fails with a TypeError, never with the
capability-unsupported error; and once init has stored a provider supplying
the primitive each operation actually checks (randomBytes for salt
generation, key derivation and fingerprinting; createCipheriv for both
encrypt and decrypt; subtle.importKey for the browser operations), the
capability-error branch of that operation is unreachable. -/
theorem c9_uninitialised_and_checked_capability (np : NativeProvider) (bp : BrowserProvider)
    (pw ivv key text : Bytes)
    (hr : np.hasRandomBytes = true) (hc : np.hasCreateCipheriv = true)
    (hbs : bp.hasSubtle = true) (hbi : bp.hasImportKey = true) :
    (nativeGenerateIvv none).2 = .err .typeError ∧
    (nativeGenerateKey none pw ivv).2 = .err .typeError ∧
    (nativeGenerateHash none pw ivv).2 = .err .typeError ∧
    (nativeEncryptText none key ivv text).failure = some .typeError ∧
    (nativeDecryptText none key ivv text).failure = some .typeError ∧
    (browserGenerateKey none pw ivv).2 = .err .typeError ∧
    (browserGenerateHash none pw ivv).2 = .err .typeError ∧
    (browserDecryptText none key ivv text).failure = some .typeError ∧
    (nativeGenerateIvv (nativeInit np)).2.isCapabilityErr = false ∧
    (nativeGenerateKey (nativeInit np) pw ivv).2.isCapabilityErr = false ∧
    (nativeGenerateHash (nativeInit np) pw ivv).2.isCapabilityErr = false ∧
    (nativeEncryptText (nativeInit np) key ivv text).isCapabilityErr = false ∧
    (nativeDecryptText (nativeInit np) key ivv text).isCapabilityErr = false ∧
    (browserGenerateKey (browserInit bp) pw ivv).2.isCapabilityErr = false ∧
    (browserGenerateHash (browserInit bp) pw ivv).2.isCapabilityErr = false ∧
    (browserDecryptText (browserInit bp) key ivv text).isCapabilityErr = false := by
  have hkey : ∀ pwx : Bytes, (nativeGenerateKey (nativeInit np) pwx ivv).2.isCapabilityErr
      = false := by
    intro pwx
    cases hpb : np.hasPbkdf2Sync <;>
      simp [nativeGenerateKey, nativeInit, hr, hpb, DeriveOut.isCapabilityErr]
  have hhash : (nativeGenerateHash (nativeInit np) pw ivv).2.isCapabilityErr = false := by
    rw [nativeGenerateHash]
    cases h1 : (nativeGenerateKey (nativeInit np) pw ivv).2 with
    | ok k =>
        have := hkey k
        simpa using this
    | err e =>
        have := hkey pw
        rw [h1] at this
        simpa using this
  have hbkey : ∀ pwx : Bytes, (browserGenerateKey (browserInit bp) pwx ivv).2.isCapabilityErr
      = false := by
    intro pwx
    cases hdb : bp.hasDeriveBits <;>
      simp [browserGenerateKey, browserInit, hbs, hbi, hdb, DeriveOut.isCapabilityErr]
  have hbhash : (browserGenerateHash (browserInit bp) pw ivv).2.isCapabilityErr = false := by
    rw [browserGenerateHash]
    cases h1 : (browserGenerateKey (browserInit bp) pw ivv).2 with
    | ok k =>
        have := hbkey k
        simpa using this
    | err e =>
        have := hbkey pw
        rw [h1] at this
        simpa using this
  refine ⟨rfl, rfl, rfl, rfl, rfl, rfl, rfl, rfl, ?_, hkey pw, hhash, ?_, ?_, hbkey pw,
    hbhash, ?_⟩
  · simp [nativeGenerateIvv, nativeInit, hr, DeriveOut.isCapabilityErr]
  · simp only [nativeEncryptText, nativeInit, hc]
    simp only [Bool.true_eq_false, if_false, ite_false, reduceIte]
    repeat' split
    all_goals rfl
  · simp only [nativeDecryptText, nativeInit, hc]
    simp only [Bool.true_eq_false, if_false, ite_false, reduceIte]
    repeat' split
    all_goals rfl
  · simp only [browserDecryptText, browserInit, hbs, hbi]
    simp only [Bool.true_and, Bool.true_eq_false, if_false, ite_false, reduceIte]
    repeat' split
    all_goals rfl

/-- Witness for C9 amended at the concrete full providers. -/
theorem c9_uninitialised_and_checked_capability_witness :
    (nativeGenerateIvv none).2 = .err .typeError ∧
    (nativeGenerateKey none pw0 saltText16).2 = .err .typeError ∧
    (nativeGenerateHash none pw0 saltText16).2 = .err .typeError ∧
    (nativeEncryptText none keyText32 saltText16 [104, 105]).failure = some .typeError ∧
    (nativeDecryptText none keyText32 saltText16 [104, 105]).failure = some .typeError ∧
    (browserGenerateKey none pw0 saltText16).2 = .err .typeError ∧
    (browserGenerateHash none pw0 saltText16).2 = .err .typeError ∧
    (browserDecryptText none keyText32 saltText16 [104, 105]).failure = some .typeError ∧
    (nativeGenerateIvv (nativeInit npFull)).2.isCapabilityErr = false ∧
    (nativeGenerateKey (nativeInit npFull) pw0 saltText16).2.isCapabilityErr = false ∧
    (nativeGenerateHash (nativeInit npFull) pw0 saltText16).2.isCapabilityErr = false ∧
    (nativeEncryptText (nativeInit npFull) keyText32 saltText16 [104, 105]).isCapabilityErr
      = false ∧
    (nativeDecryptText (nativeInit npFull) keyText32 saltText16 [104, 105]).isCapabilityErr
      = false ∧
    (browserGenerateKey (browserInit bpFull) pw0 saltText16).2.isCapabilityErr = false ∧
    (browserGenerateHash (browserInit bpFull) pw0 saltText16).2.isCapabilityErr = false ∧
    (browserDecryptText (browserInit bpFull) keyText32 saltText16
      [104, 105]).isCapabilityErr = false :=
  c9_uninitialised_and_checked_capability npFull bpFull pw0 saltText16 keyText32
    [104, 105] rfl rfl rfl rfl
